import Mathlib

/-!
Shallow embedding of the Heiken-Ashi backtester core
(`data_loader.py`, `strategy.py`, `backtest.py`).

Numeric cells are rationals; a pandas NaN ("not-a-number") is modelled as
`Option.none`, and Python's `NaN < x`, `NaN <= x` comparisons (always `False`)
become comparisons on `Option ℚ` that return `false` whenever an operand is
`none`.  Python dates are modelled as integers (day numbers); `date.weekday()`
is carried as a field.  Money amounts are exact rationals, matching the spec's
"exact, not approximate" reading of the invariants.
-/

/-- Python `a < b` on possibly-NaN floats: `false` when either side is NaN. -/
def oltB : Option ℚ → Option ℚ → Bool
  | some x, some y => decide (x < y)
  | _, _ => false

/-- Python `a <= b` on possibly-NaN floats: `false` when either side is NaN. -/
def oleB : Option ℚ → Option ℚ → Bool
  | some x, some y => decide (x ≤ y)
  | _, _ => false

/-! ## `data_loader.calculate_heiken_ashi` -/

/-- One raw OHLC bar (the numeric columns `calculate_heiken_ashi` reads).
`open_` mirrors the source's own name for the column variable. -/
structure Bar where
  open_ : ℚ
  high : ℚ
  low : ℚ
  close : ℚ
deriving DecidableEq

/-- One row of the Heiken-Ashi output columns. -/
structure HABar where
  HA_Open : ℚ
  HA_High : ℚ
  HA_Low : ℚ
  HA_Close : ℚ
deriving DecidableEq

/-- The body of the `for i in range(1, len(df))` loop of
`calculate_heiken_ashi`: each bar's `HA_Open` is
`(prev_ha_open + prev_ha_close) / 2`, `HA_Close` is `(open+high+low+close)/4`,
and the high/low envelopes take the row-wise max/min with the raw high/low. -/
def haAux (prev_ha_open prev_ha_close : ℚ) : List Bar → List HABar
  | [] => []
  | b :: rest =>
    let hc := (b.open_ + b.high + b.low + b.close) / 4
    let ho := (prev_ha_open + prev_ha_close) / 2
    { HA_Open := ho, HA_High := max b.high (max ho hc),
      HA_Low := min b.low (min ho hc), HA_Close := hc } :: haAux ho hc rest

/-- `data_loader.calculate_heiken_ashi`: the first bar seeds
`HA_Open = (open[0]+close[0])/2`; later bars follow the recurrence in
`haAux`. -/
def calculate_heiken_ashi : List Bar → List HABar
  | [] => []
  | b :: rest =>
    let hc := (b.open_ + b.high + b.low + b.close) / 4
    let ho := (b.open_ + b.close) / 2
    { HA_Open := ho, HA_High := max b.high (max ho hc),
      HA_Low := min b.low (min ho hc), HA_Close := hc } :: haAux ho hc rest

/-! ## `data_loader.calculate_macd` -/

/-- Tail of pandas `Series.ewm(span, adjust=False).mean()`:
`ema[i] = alpha * x[i] + (1 - alpha) * ema[i-1]`. -/
def ewmAux (alpha prev : ℚ) : List ℚ → List ℚ
  | [] => []
  | x :: xs =>
    let e := alpha * x + (1 - alpha) * prev
    e :: ewmAux alpha e xs

/-- pandas `Series.ewm(span=span, adjust=False).mean()`: seeded with the
first value, recurrence with `alpha = 2 / (span + 1)`. -/
def ewm_mean (span : ℕ) : List ℚ → List ℚ
  | [] => []
  | x :: xs => x :: ewmAux (2 / ((span : ℚ) + 1)) x xs

/-- The three columns returned by `calculate_macd`. -/
structure MACDResult where
  MACD_Line : List ℚ
  Signal_Line : List ℚ
  MACD_Hist : List ℚ
deriving DecidableEq

/-- `data_loader.calculate_macd`: EMAs of the standard `Close` column
(spans 12 and 26), MACD line, signal line (span 9), histogram. -/
def calculate_macd (df : List Bar) : MACDResult :=
  let close := df.map Bar.close
  let short_ema := ewm_mean 12 close
  let long_ema := ewm_mean 26 close
  let macd_line := List.zipWith (fun a b => a - b) short_ema long_ema
  let signal_line := ewm_mean 9 macd_line
  let macd_histogram := List.zipWith (fun a b => a - b) macd_line signal_line
  { MACD_Line := macd_line, Signal_Line := signal_line, MACD_Hist := macd_histogram }

/-! ## `strategy.generate_signals` -/

/-- One row of the indicator frame `generate_signals` reads.  `weekday` is
`date.weekday()` (Monday = 0).  Indicator cells may be NaN (`none`).
`Current_Holding` is the column's cell when the column is present. -/
structure IndRow where
  weekday : ℕ
  HA_Close : Option ℚ
  HA_50_MA : Option ℚ
  HA_100_MA : Option ℚ
  MACD_Hist : Option ℚ
  Current_Holding : Option ℚ
deriving DecidableEq

/-- Positional row access, `df.iloc[i]`; all uses are in bounds. -/
def rowAt (rows : List IndRow) (i : ℕ) : IndRow :=
  rows.getD i ⟨0, none, none, none, none, none⟩

/-- The sell rule set of `generate_signals` at bar `i ≥ 1`:
rule 1 `HA_Close < HA_100_MA`, rule 2 `HA_50_MA` not increasing,
rule 3 MACD histogram negative or decreasing. -/
def sellSignalAt (rows : List IndRow) (i : ℕ) : Bool :=
  let rule1 := oltB (rowAt rows i).HA_Close (rowAt rows i).HA_100_MA
  let rule2 := oleB (rowAt rows i).HA_50_MA (rowAt rows (i - 1)).HA_50_MA
  let rule3 := oltB (rowAt rows i).MACD_Hist (some 0) ||
    oltB (rowAt rows i).MACD_Hist (rowAt rows (i - 1)).MACD_Hist
  rule1 && rule2 && rule3

/-- The buy rule set of `generate_signals` at bar `i ≥ 1`, reading the sell
signal just written for the same bar.  `hasHoldingCol` records whether the
input frame carried a `Current_Holding` column; when it does not, the code
fills the column with the integer `0`. -/
def buySignalAt (hasHoldingCol : Bool) (rows : List IndRow) (i : ℕ) (sell : Bool) : Bool :=
  let w := (rowAt rows i).weekday
  let is_buy_day := w == 0 || w == 2 || w == 4
  let holding := if hasHoldingCol then (rowAt rows i).Current_Holding else some 0
  let under_limit := oltB holding (some 10000)
  is_buy_day && under_limit && !sell

/-- `strategy.generate_signals`: both signal columns start all-`False`; the
loop runs over `i in range(1, len(df))`, so bar 0 keeps `(false, false)`.
Each output pair is `(Buy_Signal, Sell_Signal)` at that bar. -/
def generate_signals (hasHoldingCol : Bool) (rows : List IndRow) : List (Bool × Bool) :=
  (List.range rows.length).map fun i =>
    if i = 0 then (false, false)
    else
      let s := sellSignalAt rows i
      (buySignalAt hasHoldingCol rows i s, s)

/-! ## `backtest.backtest_strategy` -/

/-- One row of the signals frame `backtest_strategy` reads: the trading
`Close` price (possibly NaN) and the two signal columns.  `date` is the
frame's index value for the row. -/
structure SignalBar where
  date : ℤ
  close : Option ℚ
  Buy_Signal : Bool
  Sell_Signal : Bool
deriving DecidableEq

/-- The per-bar snapshot columns `Cash`, `Holdings`, `Total_Value`, all
initialised to `0.0` before the loop. -/
structure Row where
  Cash : ℚ
  Holdings : ℚ
  Total_Value : ℚ
deriving DecidableEq

/-- The `'Type'` key of a trade dictionary. -/
inductive TradeKind where
  | Buy
  | Sell
  | FinalSell
deriving DecidableEq

/-- One trade dictionary appended to `trades`.  A `Buy` carries no
`'Profit'` key, modelled as `profit = none`. -/
structure Trade where
  kind : TradeKind
  date : ℤ
  price : ℚ
  shares : ℤ
  cash_after : ℚ
  profit : Option ℚ
deriving DecidableEq

/-- The loop-carried simulator state: `cash`, `position`, `entry_price`. -/
structure BTState where
  cash : ℚ
  position : ℤ
  entry_price : ℚ
deriving DecidableEq

/-- One iteration of the `for i in range(len(df))` loop of
`backtest_strategy`: on a NaN price the `continue` leaves the state untouched
and the row keeps its initialised zeros; otherwise the buy branch fires when
`Buy_Signal and position == 0` (buying `int(10000 // price)` shares only if
`cash >= cost and shares_to_buy > 0`), the `elif` sell branch when
`Sell_Signal and position > 0`, and the row records
`(cash, position * price, cash + position * price)`. -/
def stepBar (st : BTState) (b : SignalBar) : BTState × Row × List Trade :=
  match b.close with
  | none => (st, ⟨0, 0, 0⟩, [])
  | some trade_price =>
    let res :=
      if b.Buy_Signal = true ∧ st.position = 0 then
        let shares_to_buy : ℤ := ⌊(10000 : ℚ) / trade_price⌋
        let cost : ℚ := (shares_to_buy : ℚ) * trade_price
        if st.cash ≥ cost ∧ shares_to_buy > 0 then
          ({ cash := st.cash - cost, position := shares_to_buy,
             entry_price := trade_price },
           [{ kind := TradeKind.Buy, date := b.date, price := trade_price,
              shares := shares_to_buy, cash_after := st.cash - cost,
              profit := none }])
        else (st, [])
      else if b.Sell_Signal = true ∧ st.position > 0 then
        let proceeds : ℚ := (st.position : ℚ) * trade_price
        let profit : ℚ := proceeds - (st.position : ℚ) * st.entry_price
        ({ cash := st.cash + proceeds, position := 0, entry_price := 0 },
         [{ kind := TradeKind.Sell, date := b.date, price := trade_price,
            shares := st.position, cash_after := st.cash + proceeds,
            profit := some profit }])
      else (st, [])
    (res.1,
     ⟨res.1.cash, (res.1.position : ℚ) * trade_price,
      res.1.cash + (res.1.position : ℚ) * trade_price⟩,
     res.2)

/-- The whole forward pass of the loop, returning the final state, the
per-bar snapshot rows and the trades in order. -/
def runBars (st : BTState) : List SignalBar → BTState × List Row × List Trade
  | [] => (st, [], [])
  | b :: rest =>
    let s := stepBar st b
    let r := runBars s.1 rest
    (r.1, s.2.1 :: r.2.1, s.2.2 ++ r.2.2)

/-- `df['Close'].iloc[-1]`: the last bar's close, when the frame is
non-empty. -/
def lastClose (bars : List SignalBar) : Option ℚ :=
  match bars.getLast? with
  | some b => b.close
  | none => none

/-- `df.index[-1]` as used by the final-liquidation branch. -/
def lastDate (bars : List SignalBar) : ℤ :=
  match bars.getLast? with
  | some b => b.date
  | none => 0

/-- Rewrite the last row of the snapshot frame in place
(`df.loc[df.index[-1], ...] = ...`). -/
def mapLast (f : Row → Row) : List Row → List Row
  | [] => []
  | [r] => [f r]
  | r :: r2 :: rest => r :: mapLast f (r2 :: rest)

/-- `backtest.backtest_strategy`: forward pass, then forced liquidation of a
remaining position at the last bar's close when that price is defined
(appending a Final Sell trade and overwriting the last row with the
post-liquidation cash); when the last price is NaN only `Holdings` and
`Total_Value` of the last row are overwritten (`Holdings = 0`,
`Total_Value = cash`), the row's `Cash` cell is left as is. -/
def backtest_strategy (bars : List SignalBar) (initial_cash : ℚ) :
    List Row × List Trade :=
  let res := runBars ⟨initial_cash, 0, 0⟩ bars
  let st := res.1
  if st.position > 0 then
    match lastClose bars with
    | some last_price =>
      let proceeds : ℚ := (st.position : ℚ) * last_price
      let profit : ℚ := proceeds - (st.position : ℚ) * st.entry_price
      let cash := st.cash + proceeds
      (mapLast (fun _ => ⟨cash, 0, cash⟩) res.2.1,
       res.2.2 ++ [{ kind := TradeKind.FinalSell, date := lastDate bars,
                     price := last_price, shares := st.position,
                     cash_after := cash, profit := some profit }])
    | none =>
      (mapLast (fun r => ⟨r.Cash, 0, st.cash⟩) res.2.1, res.2.2)
  else (res.2.1, res.2.2)

/-! ## `backtest.calculate_performance_metrics` -/

/-- The dictionary returned by `calculate_performance_metrics`. -/
structure Metrics where
  total_return : ℚ
  final_value : ℚ
  max_drawdown : ℚ
  num_trades : ℕ
  win_rate : ℚ
  avg_holding_period : ℚ
  profitable_trades : ℕ
  losing_trades : ℕ
deriving DecidableEq

/-- `Series.cummax`: running maximum (the `Peak` column). -/
def cummaxAux (m : ℚ) : List ℚ → List ℚ
  | [] => []
  | x :: xs =>
    let m2 := max m x
    m2 :: cummaxAux m2 xs

/-- `df['Total_Value'].cummax()`. -/
def cummax : List ℚ → List ℚ
  | [] => []
  | x :: xs => x :: cummaxAux x xs

/-- `Series.min()` over a non-empty list (default on empty unused here). -/
def minD (d : ℚ) : List ℚ → ℚ
  | [] => d
  | x :: xs => xs.foldl min x

/-- `trade.get('Profit', 0)`. -/
def getProfit (t : Trade) : ℚ := t.profit.getD 0

/-- Membership of a trade's `'Type'` in `['Sell', 'Final Sell']`. -/
def isSellKind (t : Trade) : Bool :=
  t.kind = TradeKind.Sell ∨ t.kind = TradeKind.FinalSell

/-- The holding-period loop of `calculate_performance_metrics`: a `Buy`
stores its date, the next Sell-kind trade (with a stored buy date — pandas
timestamps are always truthy) appends the day gap and clears it. -/
def holdingPeriods (buy_date : Option ℤ) : List Trade → List ℤ
  | [] => []
  | t :: rest =>
    if t.kind = TradeKind.Buy then holdingPeriods (some t.date) rest
    else if isSellKind t ∧ buy_date.isSome then
      (t.date - buy_date.getD 0) :: holdingPeriods none rest
    else holdingPeriods buy_date rest

/-- `np.mean(holding_periods) if holding_periods else 0`. -/
def meanD : List ℤ → ℚ
  | [] => 0
  | x :: xs => ((x :: xs).map (fun n => (n : ℚ))).sum / ((x :: xs).length : ℚ)

/-- `backtest.calculate_performance_metrics` on the `Total_Value` series and
the trade list.  The result is `none` where the Python function raises: an
empty series (`iloc[-1]` raises `IndexError`), or a non-empty trade list with
no Sell-kind trade, where the `win_rate` line divides `len(...)` by the
integer zero (`ZeroDivisionError`); the pandas Series arithmetic for returns
and drawdowns never raises. -/
def calculate_performance_metrics (df_total : List ℚ) (trades : List Trade)
    (initial_cash : ℚ) : Option Metrics :=
  match df_total.getLast? with
  | none => none
  | some final_value =>
    let total_return := (final_value - initial_cash) / initial_cash * 100
    let peak := cummax df_total
    let drawdown := List.zipWith (fun v p => (v - p) / p * 100) df_total peak
    let max_drawdown := minD 0 drawdown
    let sell_trades := trades.filter fun t => isSellKind t
    let profitable_trades := trades.filter fun t => isSellKind t && decide (getProfit t > 0)
    let losing_trades := trades.filter fun t => isSellKind t && decide (getProfit t ≤ 0)
    let avg_holding_period := meanD (holdingPeriods none trades)
    let mk := fun wr => Metrics.mk total_return final_value max_drawdown
      trades.length wr avg_holding_period profitable_trades.length
      losing_trades.length
    if trades.length > 0 then
      if sell_trades.length = 0 then none
      else some (mk ((profitable_trades.length : ℚ) / (sell_trades.length : ℚ) * 100))
    else some (mk 0)

/-! ## Helper lemmas: signal generator -/

theorem oltB_none_left (b : Option ℚ) : oltB none b = false := rfl

theorem oltB_none_right (a : Option ℚ) : oltB a none = false := by
  cases a <;> rfl

theorem oleB_none_left (b : Option ℚ) : oleB none b = false := rfl

theorem oleB_none_right (a : Option ℚ) : oleB a none = false := by
  cases a <;> rfl

theorem generate_signals_length (hh : Bool) (rows : List IndRow) :
    (generate_signals hh rows).length = rows.length := by
  simp [generate_signals]

theorem generate_signals_getD (hh : Bool) (rows : List IndRow) (i : ℕ)
    (h : i < rows.length) (d : Bool × Bool) :
    (generate_signals hh rows).getD i d =
      if i = 0 then (false, false)
      else (buySignalAt hh rows i (sellSignalAt rows i), sellSignalAt rows i) := by
  unfold generate_signals
  rw [List.getD_eq_getElem?_getD, List.getElem?_map, List.getElem?_range h]
  rfl

/-! ## Claim C9: buy and sell never both fire on the same bar -/

/-- C9: for every enriched-bar sequence (with or without a
`Current_Holding` column), the emitted signal pairs never have both
`Buy_Signal` and `Sell_Signal` true on the same bar: the sell rule is
evaluated first and the buy clause requires `not_sell_day`. -/
theorem buy_sell_never_both (hh : Bool) (rows : List IndRow) (i : ℕ)
    (h : i < rows.length) :
    ¬(((generate_signals hh rows).getD i (false, false)).1 = true ∧
      ((generate_signals hh rows).getD i (false, false)).2 = true) := by
  rw [generate_signals_getD hh rows i h]
  by_cases h0 : i = 0
  · simp [h0]
  · rintro ⟨hb, hs⟩
    simp only [if_neg h0] at hb hs
    rw [hs] at hb
    simp [buySignalAt] at hb

/-- Witness for C9 at a concrete two-bar input. -/
theorem buy_sell_never_both_witness :
    ¬(((generate_signals false
        [⟨0, none, none, none, none, none⟩,
         ⟨2, some 5, some 1, some 9, some 1, none⟩]).getD 1 (false, false)).1 = true ∧
      ((generate_signals false
        [⟨0, none, none, none, none, none⟩,
         ⟨2, some 5, some 1, some 9, some 1, none⟩]).getD 1 (false, false)).2 = true) :=
  buy_sell_never_both false
    [⟨0, none, none, none, none, none⟩, ⟨2, some 5, some 1, some 9, some 1, none⟩]
    1 (by decide)

/-! ## Claim C3: signals before the moving averages are defined -/

/-- C3 counterexample: on a bar whose moving-average cells are all NaN
(and whose weekday is Wednesday), the buy signal is nevertheless `true`,
because the buy rule set never consults the moving averages; so it is not
the case that both signals are false on every bar before the moving
averages are defined. -/
theorem early_bars_buy_fires :
    ((generate_signals false
        [⟨1, none, none, none, none, none⟩,
         ⟨2, none, none, none, none, none⟩]).getD 1 (false, false)).1 = true := by decide

/-- C3 (amended): the signal generator emits no signal on the first bar, and
a NaN moving-average operand makes the affected sell clause false, so the
sell signal is false on every bar where `HA_100_MA`, or `HA_50_MA` of this
or the previous bar, is undefined; the buy signal, however, does not depend
on the moving averages and can still fire on such bars. -/
theorem first_bar_and_nan_ma_sell (hh : Bool) (rows : List IndRow) (i : ℕ)
    (h : i < rows.length) :
    (i = 0 → (generate_signals hh rows).getD i (false, false) = (false, false)) ∧
    (0 < i →
      ((rowAt rows i).HA_100_MA = none ∨ (rowAt rows i).HA_50_MA = none ∨
        (rowAt rows (i - 1)).HA_50_MA = none) →
      ((generate_signals hh rows).getD i (false, false)).2 = false) := by
  constructor
  · intro h0
    rw [generate_signals_getD hh rows i h, if_pos h0]
  · intro h0 hma
    rw [generate_signals_getD hh rows i h, if_neg (Nat.pos_iff_ne_zero.mp h0)]
    simp only
    unfold sellSignalAt
    rcases hma with h1 | h1 | h1 <;>
      simp [h1, oltB_none_right, oleB_none_left, oleB_none_right]

/-- Witness for C3 (amended) at a concrete two-bar input with NaN
moving averages. -/
theorem first_bar_and_nan_ma_sell_witness :
    ((generate_signals false
        [⟨1, none, none, none, none, none⟩,
         ⟨2, some 5, none, none, some 1, none⟩]).getD 1 (false, false)).2 = false :=
  (first_bar_and_nan_ma_sell false
    [⟨1, none, none, none, none, none⟩, ⟨2, some 5, none, none, some 1, none⟩]
    1 (by decide)).2 (by decide) (by decide)

/-! ## Claim C10: missing `Current_Holding` column -/

/-- C10: when the input frame carries no `Current_Holding` column the code
fills it with `0` and never updates it, so the exposure clause
`Current_Holding < 10000` is true on every bar and never suppresses a buy;
the buy signal on bar `i > 0` is then true exactly when the weekday is
Monday, Wednesday or Friday and the sell signal did not fire on that bar. -/
theorem buy_without_holding_column (rows : List IndRow) (i : ℕ)
    (h : i < rows.length) (h0 : 0 < i) :
    ((generate_signals false rows).getD i (false, false)).1 = true ↔
      ((rowAt rows i).weekday = 0 ∨ (rowAt rows i).weekday = 2 ∨
        (rowAt rows i).weekday = 4) ∧
      ((generate_signals false rows).getD i (false, false)).2 = false := by
  rw [generate_signals_getD false rows i h, if_neg (Nat.pos_iff_ne_zero.mp h0)]
  simp only
  unfold buySignalAt
  have hu : oltB (some 0) (some 10000) = true := by decide
  simp [hu, Bool.and_eq_true, Bool.or_eq_true, Bool.not_eq_true',
    and_comm, or_assoc]

/-- Witness for C10: a Friday bar with no holding column and no sell
signal has a true buy signal. -/
theorem buy_without_holding_column_witness :
    ((generate_signals false
        [⟨1, none, none, none, none, none⟩,
         ⟨4, none, none, none, none, none⟩]).getD 1 (false, false)).1 = true :=
  (buy_without_holding_column
    [⟨1, none, none, none, none, none⟩, ⟨4, none, none, none, none, none⟩]
    1 (by decide) (by decide)).mpr (by decide)

/-! ## Helper lemmas: Heiken-Ashi -/

theorem haAux_length (l : List Bar) : ∀ po pc : ℚ, (haAux po pc l).length = l.length := by
  induction l with
  | nil => intro po pc; rfl
  | cons b rest ih => intro po pc; simp [haAux, ih]

theorem calculate_heiken_ashi_length (l : List Bar) :
    (calculate_heiken_ashi l).length = l.length := by
  cases l with
  | nil => rfl
  | cons b rest => simp [calculate_heiken_ashi, haAux_length]

theorem haAux_pointwise (l : List Bar) : ∀ (po pc : ℚ) (i : ℕ), i < l.length →
    ((haAux po pc l).getD i ⟨0, 0, 0, 0⟩).HA_Close =
      ((l.getD i ⟨0, 0, 0, 0⟩).open_ + (l.getD i ⟨0, 0, 0, 0⟩).high +
        (l.getD i ⟨0, 0, 0, 0⟩).low + (l.getD i ⟨0, 0, 0, 0⟩).close) / 4 ∧
    ((haAux po pc l).getD i ⟨0, 0, 0, 0⟩).HA_High =
      max (l.getD i ⟨0, 0, 0, 0⟩).high
        (max ((haAux po pc l).getD i ⟨0, 0, 0, 0⟩).HA_Open
          ((haAux po pc l).getD i ⟨0, 0, 0, 0⟩).HA_Close) ∧
    ((haAux po pc l).getD i ⟨0, 0, 0, 0⟩).HA_Low =
      min (l.getD i ⟨0, 0, 0, 0⟩).low
        (min ((haAux po pc l).getD i ⟨0, 0, 0, 0⟩).HA_Open
          ((haAux po pc l).getD i ⟨0, 0, 0, 0⟩).HA_Close) := by
  induction l with
  | nil => intro po pc i h; cases h
  | cons b rest ih =>
    intro po pc i h
    cases i with
    | zero => simp [haAux]
    | succ j =>
      simpa [haAux, List.getD_cons_succ] using ih _ _ j (by simpa using h)

theorem haAux_head_open (l : List Bar) (po pc : ℚ) (h : 0 < l.length) :
    ((haAux po pc l).getD 0 ⟨0, 0, 0, 0⟩).HA_Open = (po + pc) / 2 := by
  cases l with
  | nil => cases h
  | cons b rest => simp [haAux]

theorem haAux_open_rec (l : List Bar) : ∀ (po pc : ℚ) (i : ℕ), i + 1 < l.length →
    ((haAux po pc l).getD (i + 1) ⟨0, 0, 0, 0⟩).HA_Open =
      (((haAux po pc l).getD i ⟨0, 0, 0, 0⟩).HA_Open +
        ((haAux po pc l).getD i ⟨0, 0, 0, 0⟩).HA_Close) / 2 := by
  induction l with
  | nil => intro po pc i h; cases h
  | cons b rest ih =>
    intro po pc i h
    cases i with
    | zero =>
      have hr : 0 < rest.length := by simpa using h
      simpa [haAux, List.getD_cons_succ] using
        haAux_head_open rest ((po + pc) / 2)
          ((b.open_ + b.high + b.low + b.close) / 4) hr
    | succ j =>
      simpa [haAux, List.getD_cons_succ] using ih _ _ j (by simpa using h)

/-! ## Claim C2: the Heiken-Ashi transformation -/

/-- C2: for every bar of a non-empty sequence,
`HA_Close = (open+high+low+close)/4`, `HA_Open` is seeded with
`(open[0]+close[0])/2` and follows `(HA_Open[i-1]+HA_Close[i-1])/2`, and the
high/low envelopes are the max/min of the raw high/low with `HA_Open` and
`HA_Close` of the same bar; the output has the input's length. -/
theorem heiken_ashi_spec (bars : List Bar) (i : ℕ) (h : i < bars.length) :
    (calculate_heiken_ashi bars).length = bars.length ∧
    ((calculate_heiken_ashi bars).getD i ⟨0, 0, 0, 0⟩).HA_Close =
      ((bars.getD i ⟨0, 0, 0, 0⟩).open_ + (bars.getD i ⟨0, 0, 0, 0⟩).high +
        (bars.getD i ⟨0, 0, 0, 0⟩).low + (bars.getD i ⟨0, 0, 0, 0⟩).close) / 4 ∧
    ((calculate_heiken_ashi bars).getD i ⟨0, 0, 0, 0⟩).HA_High =
      max (bars.getD i ⟨0, 0, 0, 0⟩).high
        (max ((calculate_heiken_ashi bars).getD i ⟨0, 0, 0, 0⟩).HA_Open
          ((calculate_heiken_ashi bars).getD i ⟨0, 0, 0, 0⟩).HA_Close) ∧
    ((calculate_heiken_ashi bars).getD i ⟨0, 0, 0, 0⟩).HA_Low =
      min (bars.getD i ⟨0, 0, 0, 0⟩).low
        (min ((calculate_heiken_ashi bars).getD i ⟨0, 0, 0, 0⟩).HA_Open
          ((calculate_heiken_ashi bars).getD i ⟨0, 0, 0, 0⟩).HA_Close) ∧
    (i = 0 → ((calculate_heiken_ashi bars).getD i ⟨0, 0, 0, 0⟩).HA_Open =
      ((bars.getD 0 ⟨0, 0, 0, 0⟩).open_ + (bars.getD 0 ⟨0, 0, 0, 0⟩).close) / 2) ∧
    (∀ j : ℕ, i = j + 1 →
      ((calculate_heiken_ashi bars).getD i ⟨0, 0, 0, 0⟩).HA_Open =
        (((calculate_heiken_ashi bars).getD j ⟨0, 0, 0, 0⟩).HA_Open +
          ((calculate_heiken_ashi bars).getD j ⟨0, 0, 0, 0⟩).HA_Close) / 2) := by
  cases bars with
  | nil => cases h
  | cons b rest =>
    refine ⟨calculate_heiken_ashi_length _, ?_, ?_, ?_, ?_, ?_⟩
    case _ =>
      cases i with
      | zero => simp [calculate_heiken_ashi]
      | succ j =>
        simpa [calculate_heiken_ashi, List.getD_cons_succ] using
          (haAux_pointwise rest _ _ j (by simpa using h)).1
    case _ =>
      cases i with
      | zero => simp [calculate_heiken_ashi]
      | succ j =>
        simpa [calculate_heiken_ashi, List.getD_cons_succ] using
          (haAux_pointwise rest _ _ j (by simpa using h)).2.1
    case _ =>
      cases i with
      | zero => simp [calculate_heiken_ashi]
      | succ j =>
        simpa [calculate_heiken_ashi, List.getD_cons_succ] using
          (haAux_pointwise rest _ _ j (by simpa using h)).2.2
    case _ =>
      intro h0
      subst h0
      simp [calculate_heiken_ashi]
    case _ =>
      intro j hj
      subst hj
      cases j with
      | zero =>
        have hr : 0 < rest.length := by simpa using h
        simpa [calculate_heiken_ashi, List.getD_cons_succ] using
          haAux_head_open rest ((b.open_ + b.close) / 2)
            ((b.open_ + b.high + b.low + b.close) / 4) hr
      | succ k =>
        simpa [calculate_heiken_ashi, List.getD_cons_succ] using
          haAux_open_rec rest ((b.open_ + b.close) / 2)
            ((b.open_ + b.high + b.low + b.close) / 4) k (by simpa using h)

/-- Witness for C2 on a concrete two-bar sequence. -/
theorem heiken_ashi_spec_witness :
    ((calculate_heiken_ashi [⟨10, 12, 8, 11⟩, ⟨11, 14, 10, 13⟩]).getD 1
        ⟨0, 0, 0, 0⟩).HA_Open = (21 / 2 + 41 / 4) / 2 := by
  have h := (heiken_ashi_spec [⟨10, 12, 8, 11⟩, ⟨11, 14, 10, 13⟩] 1
    (by decide)).2.2.2.2.2 0 rfl
  rw [h]
  norm_num [calculate_heiken_ashi]

/-! ## Helper lemmas: exponential moving averages -/

theorem ewmAux_length (l : List ℚ) : ∀ a p : ℚ, (ewmAux a p l).length = l.length := by
  induction l with
  | nil => intro a p; rfl
  | cons x xs ih => intro a p; simp [ewmAux, ih]

theorem ewm_mean_length (s : ℕ) (l : List ℚ) : (ewm_mean s l).length = l.length := by
  cases l with
  | nil => rfl
  | cons x xs => simp [ewm_mean, ewmAux_length]

theorem ewm_mean_head (s : ℕ) (l : List ℚ) (h : 0 < l.length) :
    (ewm_mean s l).getD 0 0 = l.getD 0 0 := by
  cases l with
  | nil => cases h
  | cons x xs => rfl

theorem ewmAux_head (l : List ℚ) (a p : ℚ) (h : 0 < l.length) :
    (ewmAux a p l).getD 0 0 = a * l.getD 0 0 + (1 - a) * p := by
  cases l with
  | nil => cases h
  | cons x xs => rfl

theorem ewmAux_rec (l : List ℚ) : ∀ (a p : ℚ) (i : ℕ), i + 1 < l.length →
    (ewmAux a p l).getD (i + 1) 0 =
      a * l.getD (i + 1) 0 + (1 - a) * (ewmAux a p l).getD i 0 := by
  induction l with
  | nil => intro a p i h; cases h
  | cons x xs ih =>
    intro a p i h
    cases i with
    | zero =>
      have hr : 0 < xs.length := by simpa using h
      simpa [ewmAux, List.getD_cons_succ] using
        ewmAux_head xs a (a * x + (1 - a) * p) hr
    | succ j =>
      simpa [ewmAux, List.getD_cons_succ] using ih _ _ j (by simpa using h)

theorem ewm_mean_rec (s : ℕ) (l : List ℚ) (i : ℕ) (h : i + 1 < l.length) :
    (ewm_mean s l).getD (i + 1) 0 =
      2 / ((s : ℚ) + 1) * l.getD (i + 1) 0 +
        (1 - 2 / ((s : ℚ) + 1)) * (ewm_mean s l).getD i 0 := by
  cases l with
  | nil => cases h
  | cons x xs =>
    cases i with
    | zero =>
      have hr : 0 < xs.length := by simpa using h
      simpa [ewm_mean, List.getD_cons_succ] using
        ewmAux_head xs (2 / ((s : ℚ) + 1)) x hr
    | succ j =>
      simpa [ewm_mean, List.getD_cons_succ] using
        ewmAux_rec xs (2 / ((s : ℚ) + 1)) x j (by simpa using h)

theorem zipWith_sub_getD (l1 : List ℚ) : ∀ (l2 : List ℚ) (i : ℕ),
    i < l1.length → i < l2.length →
    (List.zipWith (fun a b => a - b) l1 l2).getD i 0 = l1.getD i 0 - l2.getD i 0 := by
  induction l1 with
  | nil => intro l2 i h1 h2; cases h1
  | cons x xs ih =>
    intro l2 i h1 h2
    cases l2 with
    | nil => cases h2
    | cons y ys =>
      cases i with
      | zero => rfl
      | succ j =>
        simpa [List.zipWith, List.getD_cons_succ] using
          ih ys j (by simpa using h1) (by simpa using h2)

/-! ## Claim C8: MACD from the standard close series -/

/-- C8: the MACD columns are computed from the standard `Close` series of the
raw bars (`Bar.close`, never a Heiken-Ashi value): the fast and slow EMAs are
seeded with the first close and follow
`ema[i] = alpha*close[i] + (1-alpha)*ema[i-1]` with `alpha = 2/(span+1)` for
spans 12 and 26; the MACD line is their difference, the signal line is the
span-9 EMA of the MACD line, the histogram is line minus signal; every column
is defined from the first bar (all lengths equal the input length). -/
theorem macd_spec (df : List Bar) (i : ℕ) (h : i < df.length) :
    (calculate_macd df).MACD_Line.length = df.length ∧
    (calculate_macd df).Signal_Line.length = df.length ∧
    (calculate_macd df).MACD_Hist.length = df.length ∧
    (ewm_mean 12 (df.map Bar.close)).getD 0 0 = (df.getD 0 ⟨0, 0, 0, 0⟩).close ∧
    (ewm_mean 26 (df.map Bar.close)).getD 0 0 = (df.getD 0 ⟨0, 0, 0, 0⟩).close ∧
    (∀ j : ℕ, j + 1 < df.length →
      (ewm_mean 12 (df.map Bar.close)).getD (j + 1) 0 =
        2 / ((12 : ℚ) + 1) * (df.getD (j + 1) ⟨0, 0, 0, 0⟩).close +
          (1 - 2 / ((12 : ℚ) + 1)) * (ewm_mean 12 (df.map Bar.close)).getD j 0) ∧
    (∀ j : ℕ, j + 1 < df.length →
      (ewm_mean 26 (df.map Bar.close)).getD (j + 1) 0 =
        2 / ((26 : ℚ) + 1) * (df.getD (j + 1) ⟨0, 0, 0, 0⟩).close +
          (1 - 2 / ((26 : ℚ) + 1)) * (ewm_mean 26 (df.map Bar.close)).getD j 0) ∧
    (calculate_macd df).MACD_Line.getD i 0 =
      (ewm_mean 12 (df.map Bar.close)).getD i 0 -
        (ewm_mean 26 (df.map Bar.close)).getD i 0 ∧
    (calculate_macd df).Signal_Line = ewm_mean 9 (calculate_macd df).MACD_Line ∧
    (calculate_macd df).Signal_Line.getD 0 0 = (calculate_macd df).MACD_Line.getD 0 0 ∧
    (∀ j : ℕ, j + 1 < df.length →
      (calculate_macd df).Signal_Line.getD (j + 1) 0 =
        2 / ((9 : ℚ) + 1) * (calculate_macd df).MACD_Line.getD (j + 1) 0 +
          (1 - 2 / ((9 : ℚ) + 1)) * (calculate_macd df).Signal_Line.getD j 0) ∧
    (calculate_macd df).MACD_Hist.getD i 0 =
      (calculate_macd df).MACD_Line.getD i 0 -
        (calculate_macd df).Signal_Line.getD i 0 := by
  have hclen : (df.map Bar.close).length = df.length := List.length_map df Bar.close
  have hldiff : (calculate_macd df).MACD_Line.length = df.length := by
    simp [calculate_macd, List.length_zipWith, ewm_mean_length, hclen]
  have hgetc : ∀ k : ℕ, k < df.length →
      (df.map Bar.close).getD k 0 = (df.getD k ⟨0, 0, 0, 0⟩).close := by
    intro k hk
    rw [List.getD_eq_getElem?_getD, List.getD_eq_getElem?_getD, List.getElem?_map]
    have : df[k]? = some (df.getD k ⟨0, 0, 0, 0⟩) := by
      rw [List.getD_eq_getElem?_getD]
      cases hq : df[k]? with
      | none => exact absurd (List.getElem?_eq_none_iff.mp hq) (Nat.not_le_of_lt hk)
      | some v => rfl
    rw [this]
    rfl
  have hpos : 0 < df.length := Nat.lt_of_le_of_lt (Nat.zero_le i) h
  have hzlen : (List.zipWith (fun a b => a - b) (ewm_mean 12 (df.map Bar.close))
      (ewm_mean 26 (df.map Bar.close))).length = df.length := by
    simp [List.length_zipWith, ewm_mean_length, hclen]
  simp only [calculate_macd]
  refine ⟨hzlen, ?_, ?_, ?_, ?_, ?_, ?_, ?_, trivial, ?_, ?_, ?_⟩
  · simp [ewm_mean_length, hzlen]
  · simp [List.length_zipWith, ewm_mean_length, hclen]
  · rw [ewm_mean_head 12 _ (by rw [hclen]; exact hpos)]
    exact hgetc 0 hpos
  · rw [ewm_mean_head 26 _ (by rw [hclen]; exact hpos)]
    exact hgetc 0 hpos
  · intro j hj
    rw [ewm_mean_rec 12 _ j (by rw [hclen]; exact hj), hgetc (j + 1) hj]
    norm_num
  · intro j hj
    rw [ewm_mean_rec 26 _ j (by rw [hclen]; exact hj), hgetc (j + 1) hj]
    norm_num
  · exact zipWith_sub_getD _ _ i
      (by rw [ewm_mean_length, hclen]; exact h)
      (by rw [ewm_mean_length, hclen]; exact h)
  · exact ewm_mean_head 9 _ (by rw [hzlen]; exact hpos)
  · intro j hj
    rw [ewm_mean_rec 9 _ j (by rw [hzlen]; exact hj)]
    norm_num
  · exact zipWith_sub_getD _ _ i
      (by rw [hzlen]; exact h)
      (by rw [ewm_mean_length, hzlen]; exact h)

/-- Witness for C8 on a concrete two-bar input: the fast EMA at bar 1
follows the seeded recurrence on the standard closes 11 and 13. -/
theorem macd_spec_witness :
    (ewm_mean 12 ([⟨10, 12, 8, 11⟩, ⟨11, 14, 10, 13⟩].map Bar.close)).getD 1 0 =
      2 / ((12 : ℚ) + 1) * 13 + (1 - 2 / ((12 : ℚ) + 1)) * 11 := by
  have h := (macd_spec [⟨10, 12, 8, 11⟩, ⟨11, 14, 10, 13⟩] 1 (by decide)).2.2.2.2.2.1
    0 (by decide)
  rw [h]
  norm_num [ewm_mean, ewmAux]

/-! ## Helper lemmas: backtest simulator -/

theorem stepBar_none (st : BTState) (b : SignalBar) (hb : b.close = none) :
    stepBar st b = (st, ⟨0, 0, 0⟩, []) := by
  simp [stepBar, hb]

theorem stepBar_row_total (st : BTState) (b : SignalBar) :
    (stepBar st b).2.1.Total_Value =
      (stepBar st b).2.1.Cash + (stepBar st b).2.1.Holdings := by
  cases hc : b.close <;> simp [stepBar, hc]

theorem stepBar_inv (st : BTState) (b : SignalBar)
    (h0 : 0 ≤ st.cash) (h1 : 0 ≤ st.position)
    (hp : ∀ p : ℚ, b.close = some p → 0 < p) :
    0 ≤ (stepBar st b).1.cash ∧ 0 ≤ (stepBar st b).1.position ∧
    0 ≤ (stepBar st b).2.1.Cash := by
  cases hc : b.close with
  | none =>
    rw [stepBar_none st b hc]
    exact ⟨h0, h1, le_rfl⟩
  | some p =>
    have hp' := hp p hc
    have hrow : (stepBar st b).2.1.Cash = (stepBar st b).1.cash := by
      simp [stepBar, hc]
    have hmain : 0 ≤ (stepBar st b).1.cash ∧ 0 ≤ (stepBar st b).1.position := by
      simp only [stepBar, hc]
      split_ifs with hb hg hs
      · refine ⟨by simpa using sub_nonneg.mpr hg.1, ?_⟩
        simpa using hg.2.le
      · exact ⟨h0, h1⟩
      · refine ⟨?_, le_rfl⟩
        have : (0 : ℚ) ≤ (st.position : ℚ) * p :=
          mul_nonneg (by exact_mod_cast h1) hp'.le
        simpa using add_nonneg h0 this
      · exact ⟨h0, h1⟩
    exact ⟨hmain.1, hmain.2, hrow ▸ hmain.1⟩

theorem runBars_rows_length (bars : List SignalBar) : ∀ st : BTState,
    (runBars st bars).2.1.length = bars.length := by
  induction bars with
  | nil => intro st; rfl
  | cons b rest ih => intro st; simp [runBars, ih]

theorem runBars_inv (bars : List SignalBar) : ∀ st : BTState,
    0 ≤ st.cash → 0 ≤ st.position →
    (∀ b ∈ bars, ∀ p : ℚ, b.close = some p → 0 < p) →
    0 ≤ (runBars st bars).1.cash ∧ 0 ≤ (runBars st bars).1.position ∧
    ∀ r ∈ (runBars st bars).2.1,
      0 ≤ r.Cash ∧ r.Total_Value = r.Cash + r.Holdings := by
  induction bars with
  | nil =>
    intro st h0 h1 hp
    exact ⟨h0, h1, by simp [runBars]⟩
  | cons b rest ih =>
    intro st h0 h1 hp
    have hpb : ∀ p : ℚ, b.close = some p → 0 < p := hp b (by simp)
    have hstep := stepBar_inv st b h0 h1 hpb
    have hrest := ih (stepBar st b).1 hstep.1 hstep.2.1
      (fun b2 hb2 => hp b2 (by simp [hb2]))
    refine ⟨?_, ?_, ?_⟩
    · simpa [runBars] using hrest.1
    · simpa [runBars] using hrest.2.1
    · intro r hr
      simp only [runBars] at hr
      rcases List.mem_cons.mp hr with hr | hr
      · subst hr
        exact ⟨hstep.2.2, stepBar_row_total st b⟩
      · exact hrest.2.2 r hr

theorem runBars_nan_row (bars : List SignalBar) : ∀ (st : BTState) (i : ℕ),
    i < bars.length → (bars.getD i ⟨0, none, false, false⟩).close = none →
    (runBars st bars).2.1.getD i ⟨1, 1, 1⟩ = ⟨0, 0, 0⟩ := by
  induction bars with
  | nil => intro st i h; cases h
  | cons b rest ih =>
    intro st i h hnan
    cases i with
    | zero =>
      simp only [List.getD_cons_zero] at hnan
      simp [runBars, stepBar_none st b hnan]
    | succ j =>
      simp only [List.getD_cons_succ] at hnan
      simpa [runBars, List.getD_cons_succ] using
        ih (stepBar st b).1 j (by simpa using h) hnan

theorem mem_mapLast (f : Row → Row) : ∀ (l : List Row) (r : Row),
    r ∈ mapLast f l → r ∈ l ∨ ∃ r0, r0 ∈ l ∧ r = f r0 := by
  intro l
  induction l with
  | nil => intro r hr; cases hr
  | cons a rest ih =>
    intro r hr
    cases rest with
    | nil =>
      simp only [mapLast, List.mem_singleton] at hr
      exact Or.inr ⟨a, by simp, hr⟩
    | cons b rest2 =>
      simp only [mapLast, List.mem_cons] at hr
      rcases hr with hr | hr
      · exact Or.inl (by simp [hr])
      · rcases ih r hr with hin | ⟨r0, hr0, he⟩
        · exact Or.inl (List.mem_cons_of_mem a hin)
        · exact Or.inr ⟨r0, List.mem_cons_of_mem a hr0, he⟩

theorem mapLast_getD_of_lt (f : Row → Row) : ∀ (l : List Row) (i : ℕ) (d : Row),
    i + 1 < l.length → (mapLast f l).getD i d = l.getD i d := by
  intro l
  induction l with
  | nil => intro i d h; cases h
  | cons a rest ih =>
    intro i d h
    cases rest with
    | nil => simp at h
    | cons b rest2 =>
      cases i with
      | zero => rfl
      | succ j =>
        simpa [mapLast, List.getD_cons_succ] using
          ih j d (by simpa using h)

theorem getD_mem_of_lt (l : List Row) (i : ℕ) (d : Row) (h : i < l.length) :
    l.getD i d ∈ l := by
  rw [List.getD_eq_getElem?_getD, List.getElem?_eq_getElem h]
  exact List.getElem_mem h

theorem mapLast_getD_last (f : Row → Row) : ∀ (l : List Row) (d : Row), l ≠ [] →
    (mapLast f l).getD (l.length - 1) d = f (l.getD (l.length - 1) d) := by
  intro l
  induction l with
  | nil => intro d h; exact absurd rfl h
  | cons a rest ih =>
    intro d h
    cases rest with
    | nil => rfl
    | cons b rest2 =>
      have hlen : (a :: b :: rest2 : List Row).length - 1 = rest2.length + 1 := rfl
      rw [hlen]
      simp only [mapLast, List.getD_cons_succ]
      simpa using ih d (by simp)

/-! ## Claim C1: the portfolio invariants -/

/-- C1 counterexample: with a buy on bar 0 at price 20 and a NaN price on
the final bar, the position cannot be liquidated; the code overwrites the
final row's `Total_Value` with the carried cash while the row's `Cash` and
`Holdings` stay at their initialised zeros, so
`total_value == cash + holdings_value` fails on that bar. -/
theorem backtest_total_value_mismatch :
    ¬(((backtest_strategy [⟨0, some 20, true, false⟩, ⟨1, none, false, false⟩]
        100000).1.getD 1 ⟨1, 1, 1⟩).Total_Value =
      ((backtest_strategy [⟨0, some 20, true, false⟩, ⟨1, none, false, false⟩]
        100000).1.getD 1 ⟨1, 1, 1⟩).Cash +
      ((backtest_strategy [⟨0, some 20, true, false⟩, ⟨1, none, false, false⟩]
        100000).1.getD 1 ⟨1, 1, 1⟩).Holdings) := by
  have hev : backtest_strategy
      [⟨0, some 20, true, false⟩, ⟨1, none, false, false⟩] 100000 =
      ([⟨90000, 10000, 100000⟩, ⟨0, 0, 90000⟩],
       [⟨TradeKind.Buy, 0, 20, 500, 90000, none⟩]) := by
    norm_num [backtest_strategy, runBars, stepBar, lastClose, lastDate, mapLast]
  rw [hev]
  norm_num

/-- C1 (amended): with positive prices and a non-negative starting cash, the
carried cash balance is non-negative after every prefix of the bar sequence
and in every recorded snapshot (a buy executes only when cash covers the full
cost), and `Total_Value = Cash + Holdings` holds in every recorded snapshot,
with the single exception of the final bar of a run that still holds a
position when the final bar's price is NaN: the per-bar conjunct below
covers every non-final bar of every run unconditionally, and the final bar
whenever the position was closed or the last price is defined. -/
theorem backtest_invariants (bars : List SignalBar) (initial_cash : ℚ)
    (h0 : 0 ≤ initial_cash)
    (hp : ∀ b ∈ bars, ∀ p : ℚ, b.close = some p → 0 < p) :
    (∀ k : ℕ, 0 ≤ (runBars ⟨initial_cash, 0, 0⟩ (bars.take k)).1.cash) ∧
    (∀ r ∈ (backtest_strategy bars initial_cash).1, 0 ≤ r.Cash) ∧
    (∀ i : ℕ, i < bars.length →
      (i + 1 < bars.length ∨ (runBars ⟨initial_cash, 0, 0⟩ bars).1.position = 0 ∨
        (lastClose bars).isSome) →
      ((backtest_strategy bars initial_cash).1.getD i ⟨1, 1, 1⟩).Total_Value =
        ((backtest_strategy bars initial_cash).1.getD i ⟨1, 1, 1⟩).Cash +
        ((backtest_strategy bars initial_cash).1.getD i ⟨1, 1, 1⟩).Holdings) := by
  have hinv := runBars_inv bars ⟨initial_cash, 0, 0⟩ h0 le_rfl hp
  refine ⟨?_, ?_, ?_⟩
  · intro k
    exact (runBars_inv (bars.take k) ⟨initial_cash, 0, 0⟩ h0 le_rfl
      (fun b hb => hp b (List.take_subset k bars hb))).1
  · intro r hr
    by_cases hposn : (runBars ⟨initial_cash, 0, 0⟩ bars).1.position > 0
    · cases hlc : lastClose bars with
      | some p =>
        have hppos : 0 < p := by
          cases hgl : bars.getLast? with
          | none => simp [lastClose, hgl] at hlc
          | some lb =>
            have hlb : lb.close = some p := by simpa [lastClose, hgl] using hlc
            exact hp lb (List.mem_of_getLast?_eq_some hgl) p hlb
        have hcash2 : 0 ≤ (runBars ⟨initial_cash, 0, 0⟩ bars).1.cash +
            ((runBars ⟨initial_cash, 0, 0⟩ bars).1.position : ℚ) * p :=
          add_nonneg hinv.1 (mul_nonneg (by exact_mod_cast hinv.2.1) hppos.le)
        simp only [backtest_strategy, if_pos hposn, hlc] at hr
        rcases mem_mapLast _ _ r hr with hin | ⟨r0, hr0, he⟩
        · exact (hinv.2.2 r hin).1
        · rw [he]; exact hcash2
      | none =>
        simp only [backtest_strategy, if_pos hposn, hlc] at hr
        rcases mem_mapLast _ _ r hr with hin | ⟨r0, hr0, he⟩
        · exact (hinv.2.2 r hin).1
        · rw [he]; exact (hinv.2.2 r0 hr0).1
    · simp only [backtest_strategy, if_neg hposn] at hr
      exact (hinv.2.2 r hr).1
  · intro i hi hcond
    have hrowslen : (runBars ⟨initial_cash, 0, 0⟩ bars).2.1.length = bars.length :=
      runBars_rows_length bars ⟨initial_cash, 0, 0⟩
    have hrinv : ∀ j : ℕ, j < bars.length →
        ((runBars ⟨initial_cash, 0, 0⟩ bars).2.1.getD j ⟨1, 1, 1⟩).Total_Value =
          ((runBars ⟨initial_cash, 0, 0⟩ bars).2.1.getD j ⟨1, 1, 1⟩).Cash +
          ((runBars ⟨initial_cash, 0, 0⟩ bars).2.1.getD j ⟨1, 1, 1⟩).Holdings := by
      intro j hj
      exact (hinv.2.2 _ (getD_mem_of_lt _ j _ (by rw [hrowslen]; exact hj))).2
    by_cases hposn : (runBars ⟨initial_cash, 0, 0⟩ bars).1.position > 0
    · cases hlc : lastClose bars with
      | some p =>
        simp only [backtest_strategy, if_pos hposn, hlc]
        rcases Nat.lt_or_ge (i + 1) bars.length with hlt | hge
        · rw [mapLast_getD_of_lt _ _ i _ (by rw [hrowslen]; exact hlt)]
          exact hrinv i hi
        · have hne : (runBars ⟨initial_cash, 0, 0⟩ bars).2.1 ≠ [] :=
            List.ne_nil_of_length_pos (by rw [hrowslen]; omega)
          have hi2 : i = (runBars ⟨initial_cash, 0, 0⟩ bars).2.1.length - 1 := by
            rw [hrowslen]; omega
          rw [hi2, mapLast_getD_last _ _ _ hne]
          simp
      | none =>
        rcases hcond with hlt | hz | hs
        · simp only [backtest_strategy, if_pos hposn, hlc]
          rw [mapLast_getD_of_lt _ _ i _ (by rw [hrowslen]; exact hlt)]
          exact hrinv i hi
        · omega
        · rw [hlc] at hs; simp at hs
    · simp only [backtest_strategy, if_neg hposn]
      exact hrinv i hi

/-- Witness for C1 (amended) at a one-bar input with a buy at price 20. -/
theorem backtest_invariants_witness :
    0 ≤ (runBars ⟨100000, 0, 0⟩ ([⟨0, some 20, true, false⟩].take 1)).1.cash ∧
    ((backtest_strategy [⟨0, some 20, true, false⟩] 100000).1.getD 0
        ⟨1, 1, 1⟩).Total_Value =
      ((backtest_strategy [⟨0, some 20, true, false⟩] 100000).1.getD 0
        ⟨1, 1, 1⟩).Cash +
      ((backtest_strategy [⟨0, some 20, true, false⟩] 100000).1.getD 0
        ⟨1, 1, 1⟩).Holdings := by
  have h := backtest_invariants [⟨0, some 20, true, false⟩] 100000 (by norm_num)
    (by
      intro b hb p hpe
      rw [List.mem_singleton] at hb
      subst hb
      rw [show (⟨0, some 20, true, false⟩ : SignalBar).close = some 20 from rfl] at hpe
      injection hpe with h20
      rw [← h20]
      norm_num)
  exact ⟨h.1 1, h.2.2 0 (by norm_num) (Or.inr (Or.inr rfl))⟩

/-! ## Claim C4: bars with a NaN execution price -/

/-- C4 counterexample: on a skipped (NaN-price) bar the recorded snapshot is
the initialised zero row, not a carry-forward of the prior cash: after a bar
with cash 100000, the NaN bar's recorded `Cash` is 0. -/
theorem nan_bar_snapshot_zero :
    (((backtest_strategy [⟨0, some 20, false, false⟩, ⟨1, none, false, false⟩]
        100000).1.getD 1 ⟨1, 1, 1⟩).Cash = 0) ∧
    (((backtest_strategy [⟨0, some 20, false, false⟩, ⟨1, none, false, false⟩]
        100000).1.getD 0 ⟨1, 1, 1⟩).Cash = 100000) := by
  have hev : backtest_strategy
      [⟨0, some 20, false, false⟩, ⟨1, none, false, false⟩] 100000 =
      ([⟨100000, 0, 100000⟩, ⟨0, 0, 0⟩], []) := by
    norm_num [backtest_strategy, runBars, stepBar, lastClose, lastDate, mapLast]
  rw [hev]
  exact ⟨rfl, rfl⟩

/-- C4 (amended): a bar with a NaN execution price is skipped with the
simulator state carried forward unchanged, but its recorded snapshot keeps
the initialised zeros (`Cash = Holdings = Total_Value = 0`) rather than
carrying the prior cash forward (stated away from the final-liquidation
overwrite of the last row). -/
theorem nan_bar_skip (bars : List SignalBar) (initial_cash : ℚ) (i : ℕ)
    (h : i < bars.length)
    (hnan : (bars.getD i ⟨0, none, false, false⟩).close = none)
    (hexcl : i + 1 < bars.length ∨
      ¬(runBars ⟨initial_cash, 0, 0⟩ bars).1.position > 0) :
    (∀ st : BTState, stepBar st (bars.getD i ⟨0, none, false, false⟩) =
      (st, ⟨0, 0, 0⟩, [])) ∧
    (backtest_strategy bars initial_cash).1.getD i ⟨1, 1, 1⟩ = ⟨0, 0, 0⟩ := by
  refine ⟨fun st => stepBar_none st _ hnan, ?_⟩
  have hrows := runBars_nan_row bars ⟨initial_cash, 0, 0⟩ i h hnan
  by_cases hposn : (runBars ⟨initial_cash, 0, 0⟩ bars).1.position > 0
  · rcases hexcl with hlt | hex
    · have hlen : i + 1 < (runBars ⟨initial_cash, 0, 0⟩ bars).2.1.length := by
        rw [runBars_rows_length]; exact hlt
      cases hlc : lastClose bars with
      | some p =>
        simp only [backtest_strategy, if_pos hposn, hlc]
        rw [mapLast_getD_of_lt _ _ i _ hlen]
        exact hrows
      | none =>
        simp only [backtest_strategy, if_pos hposn, hlc]
        rw [mapLast_getD_of_lt _ _ i _ hlen]
        exact hrows
    · exact absurd hposn hex
  · simp only [backtest_strategy, if_neg hposn]
    exact hrows

/-- Witness for C4 (amended) at the concrete two-bar input. -/
theorem nan_bar_skip_witness :
    (backtest_strategy [⟨0, some 20, false, false⟩, ⟨1, none, false, false⟩]
      100000).1.getD 1 ⟨1, 1, 1⟩ = ⟨0, 0, 0⟩ :=
  (nan_bar_skip [⟨0, some 20, false, false⟩, ⟨1, none, false, false⟩]
    100000 1 (by decide) (by decide) (Or.inr (by decide))).2

/-! ## Claim C6: buy sizing and silent rejection -/

/-- C6: when a buy signal fires with no position held and a defined positive
price, the simulator buys exactly `floor(10000 / price)` whole shares; if
that count is 0 or cash is below `shares * price`, the buy is rejected
silently (no trade, state unchanged, the snapshot records the old state); on
success cash decreases by exactly `shares * price` and a Buy trade is
appended. -/
theorem buy_execution (st : BTState) (b : SignalBar) (p : ℚ)
    (hc : b.close = some p) (hb : b.Buy_Signal = true) (hpos : st.position = 0)
    (hp : 0 < p) :
    (⌊(10000 : ℚ) / p⌋ = 0 ∨ st.cash < (⌊(10000 : ℚ) / p⌋ : ℚ) * p →
      stepBar st b = (st, ⟨st.cash, 0, st.cash⟩, [])) ∧
    (0 < ⌊(10000 : ℚ) / p⌋ → (⌊(10000 : ℚ) / p⌋ : ℚ) * p ≤ st.cash →
      stepBar st b =
        ({ cash := st.cash - (⌊(10000 : ℚ) / p⌋ : ℚ) * p,
           position := ⌊(10000 : ℚ) / p⌋, entry_price := p },
         ⟨st.cash - (⌊(10000 : ℚ) / p⌋ : ℚ) * p,
          (⌊(10000 : ℚ) / p⌋ : ℚ) * p, st.cash⟩,
         [{ kind := TradeKind.Buy, date := b.date, price := p,
            shares := ⌊(10000 : ℚ) / p⌋,
            cash_after := st.cash - (⌊(10000 : ℚ) / p⌋ : ℚ) * p,
            profit := none }])) := by
  constructor
  · intro hrej
    have hguard : ¬(st.cash ≥ (⌊(10000 : ℚ) / p⌋ : ℚ) * p ∧
        ⌊(10000 : ℚ) / p⌋ > 0) := by
      rcases hrej with h1 | h1
      · rintro ⟨_, hgt⟩; omega
      · rintro ⟨hge, _⟩; exact absurd hge (not_le.mpr h1)
    simp only [stepBar, hc, if_pos (And.intro hb hpos), if_neg hguard]
    simp [hpos]
  · intro hshares hcash
    have hguard : st.cash ≥ (⌊(10000 : ℚ) / p⌋ : ℚ) * p ∧
        ⌊(10000 : ℚ) / p⌋ > 0 := ⟨hcash, hshares⟩
    simp only [stepBar, hc, if_pos (And.intro hb hpos), if_pos hguard]
    simp only [Prod.mk.injEq, Row.mk.injEq, BTState.mk.injEq, and_true, true_and]
    ring

/-- Witness for C6: at price 20 with cash 100000, exactly 500 shares are
bought and cash drops by exactly 10000. -/
theorem buy_execution_witness :
    stepBar ⟨100000, 0, 0⟩ ⟨0, some 20, true, false⟩ =
      (⟨90000, 500, 20⟩, ⟨90000, 10000, 100000⟩,
       [⟨TradeKind.Buy, 0, 20, 500, 90000, none⟩]) := by
  have hfl : ⌊(10000 : ℚ) / 20⌋ = 500 := by norm_num
  have h := (buy_execution ⟨100000, 0, 0⟩ ⟨0, some 20, true, false⟩ 20
    rfl rfl rfl (by norm_num)).2
    (by rw [hfl]; norm_num) (by rw [hfl]; norm_num)
  rw [h]
  norm_num [hfl, Prod.ext_iff]

/-! ## Claim C7: forced final liquidation -/

/-- C7: if a position is still held after the forward pass, then with a
defined last price the simulator appends a Final Sell trade at that price
with `profit = shares*price - shares*entry_price`, adds the proceeds to
cash, and overwrites the final snapshot to `Holdings = 0` and
`Total_Value` = post-liquidation cash; with a NaN last price liquidation is
skipped (no trade) and the final snapshot reports `Holdings = 0` with
`Total_Value` = the carried cash. -/
theorem final_liquidation (bars : List SignalBar) (initial_cash : ℚ)
    (hpos : (runBars ⟨initial_cash, 0, 0⟩ bars).1.position > 0) :
    (∀ p : ℚ, lastClose bars = some p →
      backtest_strategy bars initial_cash =
        (mapLast (fun _ => ⟨(runBars ⟨initial_cash, 0, 0⟩ bars).1.cash +
            ((runBars ⟨initial_cash, 0, 0⟩ bars).1.position : ℚ) * p, 0,
            (runBars ⟨initial_cash, 0, 0⟩ bars).1.cash +
            ((runBars ⟨initial_cash, 0, 0⟩ bars).1.position : ℚ) * p⟩)
          (runBars ⟨initial_cash, 0, 0⟩ bars).2.1,
         (runBars ⟨initial_cash, 0, 0⟩ bars).2.2 ++
           [{ kind := TradeKind.FinalSell, date := lastDate bars, price := p,
              shares := (runBars ⟨initial_cash, 0, 0⟩ bars).1.position,
              cash_after := (runBars ⟨initial_cash, 0, 0⟩ bars).1.cash +
                ((runBars ⟨initial_cash, 0, 0⟩ bars).1.position : ℚ) * p,
              profit := some
                (((runBars ⟨initial_cash, 0, 0⟩ bars).1.position : ℚ) * p -
                 ((runBars ⟨initial_cash, 0, 0⟩ bars).1.position : ℚ) *
                   (runBars ⟨initial_cash, 0, 0⟩ bars).1.entry_price) }])) ∧
    (lastClose bars = none →
      backtest_strategy bars initial_cash =
        (mapLast (fun r => ⟨r.Cash, 0, (runBars ⟨initial_cash, 0, 0⟩ bars).1.cash⟩)
          (runBars ⟨initial_cash, 0, 0⟩ bars).2.1,
         (runBars ⟨initial_cash, 0, 0⟩ bars).2.2)) := by
  constructor
  · intro p hlc
    simp only [backtest_strategy, if_pos hpos, hlc]
  · intro hlc
    simp only [backtest_strategy, if_pos hpos, hlc]

/-- Witness for C7: a buy at 20 followed by a liquidation bar at 25 yields
a Final Sell with profit 2500 and a final snapshot equal to the
post-liquidation cash. -/
theorem final_liquidation_witness :
    backtest_strategy [⟨0, some 20, true, false⟩, ⟨1, some 25, false, false⟩]
        100000 =
      ([⟨90000, 10000, 100000⟩, ⟨102500, 0, 102500⟩],
       [⟨TradeKind.Buy, 0, 20, 500, 90000, none⟩,
        ⟨TradeKind.FinalSell, 1, 25, 500, 102500, some 2500⟩]) := by
  have hrun : runBars ⟨100000, 0, 0⟩
      [⟨0, some 20, true, false⟩, ⟨1, some 25, false, false⟩] =
      (⟨90000, 500, 20⟩,
       [⟨90000, 10000, 100000⟩, ⟨90000, 12500, 102500⟩],
       [⟨TradeKind.Buy, 0, 20, 500, 90000, none⟩]) := by
    norm_num [runBars, stepBar, Prod.ext_iff]
  have h := (final_liquidation
    [⟨0, some 20, true, false⟩, ⟨1, some 25, false, false⟩] 100000
    (by rw [hrun]; norm_num)).1 25 rfl
  rw [h, hrun]
  norm_num [mapLast, lastDate, Prod.ext_iff]

/-! ## Claim C5: performance metrics on a Buy-only trade list -/

/-- C5: contrary to the spec, `calculate_performance_metrics` does not
complete on every trade list: with a non-empty trade list containing no
Sell/Final Sell trade, the `win_rate` expression divides by the integer
`len([]) = 0` — the `if len(trades) > 0` guard tests the wrong list — and
the Python code raises `ZeroDivisionError` (modelled as `none`). -/
theorem performance_metrics_buy_only_raises :
    calculate_performance_metrics [100000]
      [⟨TradeKind.Buy, 0, 20, 500, 90000, none⟩] 100000 = none := by
  simp +decide [calculate_performance_metrics, isSellKind, List.filter]
